import Mathlib

/-!
Verification development for the planar winding generator
(`winding_generator.py`): a shallow embedding of the geometry core
(`create_left_center`, `create_left_bottom`, `create_left_top`, and the
dispatch in `PlanarRectSpiralLC.Run`) over exact integer arithmetic, with
theorems settling the specification claims about it.

Modelling conventions:
* Python integers are `ℤ`; Python floor division `//` is `Int.fdiv`.
* The sink (`add_track` / `add_arc` on the pcbnew board) is modelled as a
  list of emitted `Seg` values in emission order; both sink functions clamp
  the width with `max width 1`, modelled by `emitWidth`.
* `add_arc` computes its start/mid/end points as
  `center + radius * (cos θ, sin θ)` rounded to integers.  Every angle the
  generators pass at a primitive junction is a multiple of 90°, where the
  rounded float trigonometry of the source yields the exact values 0 / ±1
  for any board-scale radius; `cosQ`/`sinQ` tabulate exactly those angles
  and return `none` for angles outside the table (the clipped end-cap
  angles, whose endpoints no claim needs).
* The one fallible spot of the source is the float division
  `float(limit) / float(radius_now)` inside the `windings == 1` branch of
  `create_left_center`, which raises `ZeroDivisionError` when
  `radius_now == 0`; `create_left_center` therefore returns an
  `Option (List Seg)`, `none` exactly in that case (`lcZeroDiv`).
* The clipped end-cap angle `int(round(180 * acos(ratio) / pi))` is
  modelled with real `arccos` (`clipAngle`); no claim depends on its value
  at a non-special argument.
-/

namespace WindingGen

/-- An integer board point (KiCad `VECTOR2I`, nanometre units). -/
structure Pt where
  x : ℤ
  y : ℤ
deriving DecidableEq, Repr

/-- An emitted primitive: a straight track (`add_track`) or a circular arc
(`add_arc`, described by centre, radius and start/end angles in degrees). -/
inductive Seg where
  | line (p1 p2 : Pt) (width : ℤ)
  | arc (center : Pt) (radius : ℤ) (a1 a2 : ℤ) (width : ℤ)
deriving DecidableEq, Repr

/-- Width clamp performed by both sink functions (`max(width, 1)`). -/
def emitWidth (w : ℤ) : ℤ := max w 1

/-- `cos` at the quarter angles the generators use for junctions (exact in
the source after integer rounding); `none` off the table. -/
def cosQ (θ : ℤ) : Option ℤ :=
  if θ = 0 ∨ θ = 360 then some 1
  else if θ = 90 then some 0
  else if θ = 180 then some (-1)
  else if θ = 270 then some 0
  else none

/-- `sin` at the quarter angles the generators use for junctions. -/
def sinQ (θ : ℤ) : Option ℤ :=
  if θ = 0 ∨ θ = 360 then some 0
  else if θ = 90 then some 1
  else if θ = 180 then some 0
  else if θ = 270 then some (-1)
  else none

/-- The point `center + radius * (cos θ, sin θ)` of an arc at angle `θ`, as
`add_arc` computes its start/end points, where the table applies. -/
def arcPt (c : Pt) (r θ : ℤ) : Option Pt :=
  match cosQ θ, sinQ θ with
  | some cv, some sv => some ⟨c.x + r * cv, c.y + r * sv⟩
  | _, _ => none

/-- The two geometric endpoints of a primitive (for arcs: the points at the
start and end angles), where modelled. -/
def segEnds : Seg → List (Option Pt)
  | .line p1 p2 _ => [some p1, some p2]
  | .arc c r a1 a2 _ => [arcPt c r a1, arcPt c r a2]

/-- Two consecutive primitives are contiguous when they share a (modelled)
geometric endpoint exactly. -/
def contiguous (s t : Seg) : Prop := ∃ e ∈ segEnds s, e ≠ none ∧ e ∈ segEnds t

instance (s t : Seg) : Decidable (contiguous s t) := by
  unfold contiguous; infer_instance

/-- Primitive classifiers and accessors used by the claims. -/
def Seg.isLine : Seg → Bool
  | .line .. => true
  | .arc .. => false

def Seg.isArc : Seg → Bool
  | .line .. => false
  | .arc .. => true

/-- Radius of an arc primitive (0 for lines). -/
def Seg.arcRadius : Seg → ℤ
  | .line .. => 0
  | .arc _ r _ _ _ => r

/-- Sweep `a2 - a1` of an arc primitive (0 for lines). -/
def Seg.sweepDeg : Seg → ℤ
  | .line .. => 0
  | .arc _ _ a1 a2 _ => a2 - a1

/-- The parameters of one generator call, after the host dialog conversion:
all lengths in integer nanometres, `windings` the (possibly unclamped) turn
count `n`. Field names follow the Python signature. -/
structure WParams where
  center : Pt
  w_length : ℤ
  w_height : ℤ
  r_corner : ℤ
  clearance : ℤ
  track_width : ℤ
  track_spacing : ℤ
  windings : ℤ
deriving DecidableEq, Repr

/-- `radius = min(r_corner, w_length // 2, w_height // 2)`. -/
def radius (p : WParams) : ℤ :=
  min p.r_corner (min (p.w_length.fdiv 2) (p.w_height.fdiv 2))

/-- `f_length = w_length - 2 * radius`. -/
def f_length (p : WParams) : ℤ := p.w_length - 2 * radius p

/-- `f_height = w_height - 2 * radius`. -/
def f_height (p : WParams) : ℤ := p.w_height - 2 * radius p

/-- Initial `radius_now = radius + Clearance + t_width // 2`. -/
def radius_now0 (p : WParams) : ℤ :=
  radius p + p.clearance + p.track_width.fdiv 2

/-- The bound `(w_height // 2) + Clearance - (t_spacing // 2)` that gates
the end-cap angle clipping (line 305 of the source). -/
def hlimit (p : WParams) : ℤ :=
  p.w_height.fdiv 2 + p.clearance - p.track_spacing.fdiv 2

/-- The vertical limit `(w_height // 2) + Clearance + (t_width // 2)` used
by the radius-increment clipping (line 297 of the source). -/
def vlimit (p : WParams) : ℤ :=
  p.w_height.fdiv 2 + p.clearance + p.track_width.fdiv 2

/-- `rad_inc1` before the `windings == 1` override: the per-turn step
`t_spacing + t_width`, clipped to the remaining headroom below `vlimit`. -/
def rad_inc1_pre (p : WParams) : ℤ :=
  if radius_now0 p + (p.track_spacing + p.track_width) > vlimit p then
    vlimit p - radius_now0 p
  else p.track_spacing + p.track_width

/-- `rad_inc2` before the `windings == 1` override: the remainder of the
per-turn step. -/
def rad_inc2_pre (p : WParams) : ℤ :=
  (p.track_spacing + p.track_width) - rad_inc1_pre p

/-- `rad_inc1` as used by the turn loop (zeroed when `windings == 1`). -/
def rad_inc1 (p : WParams) : ℤ :=
  if p.windings = 1 then 0 else rad_inc1_pre p

/-- `rad_inc2` as used by the turn loop (zeroed when `windings == 1`). -/
def rad_inc2 (p : WParams) : ℤ :=
  if p.windings = 1 then 0 else rad_inc2_pre p

/-- Initial pen x: `ax - (w_length // 2) - Clearance - (t_width // 2)`. -/
def now_x0 (p : WParams) : ℤ :=
  p.center.x - p.w_length.fdiv 2 - p.clearance - p.track_width.fdiv 2

/-- Initial pen y: `ay`, shifted by `t_width // 2 + t_spacing // 2` in the
`windings == 1` branch (line 303 of the source). -/
def now_y0 (p : WParams) : ℤ :=
  if p.windings = 1 then
    p.center.y + p.track_width.fdiv 2 + p.track_spacing.fdiv 2
  else p.center.y

/-- The clipped end-cap angle
`int(round(180.0 * math.acos(ratio) / math.pi))` with
`ratio = clamp(1 - lim / rn, -1, 1)` (lines 306–308 of the source). -/
noncomputable def clipAngle (lim rn : ℤ) : ℤ :=
  round ((180 : ℝ) * Real.arccos (max (-1) (min 1 (1 - (lim : ℝ) / (rn : ℝ)))) / Real.pi)

/-- The end-cap sweep angle: 90 unless the `windings == 1` branch computes
a clipped angle (lines 294, 302–308 of the source). -/
noncomputable def lcAngle (p : WParams) : ℤ :=
  if p.windings = 1 ∧ radius_now0 p > hlimit p then
    clipAngle (hlimit p) (radius_now0 p)
  else 90

/-- The only failure of the source geometry: inside the `windings == 1`
branch, `float(hlimit) / float(radius_now)` divides by zero when
`radius_now == 0` (line 306), aborting the run before any emission. -/
def lcZeroDiv (p : WParams) : Prop :=
  p.windings = 1 ∧ radius_now0 p > hlimit p ∧ radius_now0 p = 0

instance (p : WParams) : Decidable (lcZeroDiv p) := by
  unfold lcZeroDiv; infer_instance

/-- The mutable pen state threaded through a generator loop. -/
structure LCState where
  nx : ℤ
  ny : ℤ
  rn : ℤ
deriving DecidableEq, Repr

/-- Initial left-center state (pen at the left edge, first-turn radius). -/
def initLC (p : WParams) : LCState :=
  ⟨now_x0 p, now_y0 p, radius_now0 p⟩

/-- One iteration of the `create_left_center` turn loop (source lines
310–365): returns the updated state and the primitives emitted, in order. -/
def turnLC (p : WParams) (angle : ℤ) (st : LCState) : LCState × List Seg :=
  let tw := p.track_width
  let ts := p.track_spacing
  let fl := f_length p
  let fh := f_height p
  let w := emitWidth tw
  let stub1 : List Seg :=
    if angle = 90 then
      let q1 : Pt := ⟨st.nx, st.ny⟩
      let q2 : Pt := ⟨st.nx, st.ny + fh.fdiv 2⟩
      let q2 : Pt :=
        if p.windings = 1 then ⟨q2.x, q2.y - (tw.fdiv 2 - ts.fdiv 2)⟩ else q2
      [Seg.line q1 q2 w]
    else []
  let ny := st.ny + fh.fdiv 2
  let ny := if p.windings = 1 then ny - tw.fdiv 2 - ts.fdiv 2 else ny
  let c1 : Pt := ⟨st.nx + st.rn, ny⟩
  let a1 := Seg.arc c1 st.rn 90 (90 + angle) w
  let nx := st.nx + st.rn
  let ny := ny + st.rn
  let l1 := Seg.line ⟨nx, ny⟩ ⟨nx + fl, ny⟩ w
  let nx := nx + fl
  let c2 : Pt := ⟨nx, ny - st.rn⟩
  let a2 := Seg.arc c2 st.rn 0 90 w
  let nx := nx + st.rn
  let ny := ny - st.rn
  let l2 := Seg.line ⟨nx, ny⟩ ⟨nx, ny - fh⟩ w
  let ny := ny - fh
  let c3 : Pt := ⟨nx - st.rn, ny⟩
  let a3 := Seg.arc c3 st.rn 270 360 w
  let nx := nx - st.rn
  let ny := ny - st.rn
  let l3 := Seg.line ⟨nx, ny⟩ ⟨nx - fl - rad_inc2 p, ny⟩ w
  let nx := nx - fl - rad_inc2 p
  let rn := st.rn + rad_inc1 p
  let c4 : Pt := ⟨nx, ny + rn⟩
  let a4 := Seg.arc c4 rn (270 - angle) 270 w
  let nx := nx - rn
  let ny := ny + rn
  let stub2 : List Seg :=
    if angle = 90 then
      let q3 : Pt := ⟨nx, ny⟩
      let q4 : Pt := ⟨nx, p.center.y⟩
      let q4 : Pt :=
        if p.windings = 1 then ⟨q4.x, q4.y - (tw.fdiv 2 + ts.fdiv 2)⟩ else q4
      [Seg.line q3 q4 w]
    else []
  (⟨nx, p.center.y, rn + rad_inc2 p⟩,
    stub1 ++ [a1, l1, a2, l2, a3, l3, a4] ++ stub2)

/-- `k` iterations of the left-center turn loop, collecting emissions. -/
def loopLC (p : WParams) (angle : ℤ) : ℕ → LCState → List Seg
  | 0, _ => []
  | k + 1, st => (turnLC p angle st).2 ++ loopLC p angle k (turnLC p angle st).1

/-- The pen state after `k` left-center turns. -/
noncomputable def lcState (p : WParams) : ℕ → LCState
  | 0 => initLC p
  | k + 1 => (turnLC p (lcAngle p) (lcState p k)).1

/-- The full emission sequence of a non-failing left-center run
(`range(windings)` iterates `max 0 windings` times). -/
noncomputable def lcTrace (p : WParams) : List Seg :=
  loopLC p (lcAngle p) p.windings.toNat (initLC p)

/-- `create_left_center`: the geometry routine for the left-center start;
`none` models the `ZeroDivisionError` of line 306. -/
noncomputable def create_left_center (p : WParams) : Option (List Seg) :=
  if lcZeroDiv p then none else some (lcTrace p)

/-- Initial left-bottom state (source lines 405–409). -/
def initLB (p : WParams) : LCState :=
  ⟨p.center.x - (f_length p).fdiv 2,
   p.center.y + p.w_height.fdiv 2 + p.clearance + p.track_width.fdiv 2,
   radius_now0 p⟩

/-- One iteration of the `create_left_bottom` turn loop (source lines
411–449). -/
def turnLB (p : WParams) (st : LCState) : LCState × List Seg :=
  let tw := p.track_width
  let ts := p.track_spacing
  let fl := f_length p
  let fh := f_height p
  let w := emitWidth tw
  let l1 := Seg.line ⟨st.nx, st.ny⟩ ⟨st.nx + fl, st.ny⟩ w
  let nx := st.nx + fl
  let a1 := Seg.arc ⟨nx, st.ny - st.rn⟩ st.rn 0 90 w
  let nx := nx + st.rn
  let ny := st.ny - st.rn
  let l2 := Seg.line ⟨nx, ny⟩ ⟨nx, ny - fh⟩ w
  let ny := ny - fh
  let a2 := Seg.arc ⟨nx - st.rn, ny⟩ st.rn 270 360 w
  let nx := nx - st.rn
  let ny := ny - st.rn
  let l3 := Seg.line ⟨nx, ny⟩ ⟨nx - fl, ny⟩ w
  let nx := nx - fl
  let a3 := Seg.arc ⟨nx, ny + st.rn⟩ st.rn 180 270 w
  let nx := nx - st.rn
  let ny := ny + st.rn
  let l4 := Seg.line ⟨nx, ny⟩ ⟨nx, ny + fh + tw + ts⟩ w
  let ny := ny + fh + tw + ts
  let a4 := Seg.arc ⟨nx + st.rn, ny⟩ st.rn 90 180 w
  let nx := nx + st.rn
  let ny := ny + st.rn
  (⟨nx, ny, st.rn + ts + tw⟩, [l1, a1, l2, a2, l3, a3, l4, a4])

/-- `k` iterations of the left-bottom turn loop. -/
def loopLB (p : WParams) : ℕ → LCState → List Seg
  | 0, _ => []
  | k + 1, st => (turnLB p st).2 ++ loopLB p k (turnLB p st).1

/-- The pen state after `k` left-bottom turns. -/
def lbState (p : WParams) : ℕ → LCState
  | 0 => initLB p
  | k + 1 => (turnLB p (lbState p k)).1

/-- The emission sequence of the left-bottom loop. -/
def lbTrace (p : WParams) : List Seg :=
  loopLB p p.windings.toNat (initLB p)

/-- `create_left_bottom`: delegates to `create_left_center` for one turn. -/
noncomputable def create_left_bottom (p : WParams) : Option (List Seg) :=
  if p.windings = 1 then create_left_center p else some (lbTrace p)

/-- Initial left-top state (source lines 490–494). -/
def initLT (p : WParams) : LCState :=
  ⟨p.center.x - p.w_length.fdiv 2 - p.clearance - p.track_width.fdiv 2,
   p.center.y - (f_height p).fdiv 2,
   radius_now0 p⟩

/-- One iteration of the `create_left_top` turn loop (source lines
496–534). -/
def turnLT (p : WParams) (st : LCState) : LCState × List Seg :=
  let tw := p.track_width
  let ts := p.track_spacing
  let fl := f_length p
  let fh := f_height p
  let w := emitWidth tw
  let l1 := Seg.line ⟨st.nx, st.ny⟩ ⟨st.nx, st.ny + fh⟩ w
  let ny := st.ny + fh
  let a1 := Seg.arc ⟨st.nx + st.rn, ny⟩ st.rn 90 180 w
  let nx := st.nx + st.rn
  let ny := ny + st.rn
  let l2 := Seg.line ⟨nx, ny⟩ ⟨nx + fl, ny⟩ w
  let nx := nx + fl
  let a2 := Seg.arc ⟨nx, ny - st.rn⟩ st.rn 0 90 w
  let nx := nx + st.rn
  let ny := ny - st.rn
  let l3 := Seg.line ⟨nx, ny⟩ ⟨nx, ny - fh⟩ w
  let ny := ny - fh
  let a3 := Seg.arc ⟨nx - st.rn, ny⟩ st.rn 270 360 w
  let nx := nx - st.rn
  let ny := ny - st.rn
  let l4 := Seg.line ⟨nx, ny⟩ ⟨nx - fl - tw - ts, ny⟩ w
  let nx := nx - fl - tw - ts
  let a4 := Seg.arc ⟨nx, ny + st.rn⟩ st.rn 180 270 w
  let nx := nx - st.rn
  let ny := ny + st.rn
  (⟨nx, ny, st.rn + ts + tw⟩, [l1, a1, l2, a2, l3, a3, l4, a4])

/-- `k` iterations of the left-top turn loop. -/
def loopLT (p : WParams) : ℕ → LCState → List Seg
  | 0, _ => []
  | k + 1, st => (turnLT p st).2 ++ loopLT p k (turnLT p st).1

/-- The emission sequence of the left-top loop. -/
def ltTrace (p : WParams) : List Seg :=
  loopLT p p.windings.toNat (initLT p)

/-- `create_left_top`: delegates to `create_left_center` for one turn. -/
noncomputable def create_left_top (p : WParams) : Option (List Seg) :=
  if p.windings = 1 then create_left_center p else some (ltTrace p)

/-- The generation entry point (`PlanarRectSpiralLC.Run`, lines 573–591):
clamps the turn count with `max(1, n)` and dispatches on the start
position (`0` = left-top, `2` = left-bottom, otherwise left-center). -/
noncomputable def Run (start : ℤ) (p : WParams) : Option (List Seg) :=
  let q : WParams := { p with windings := max 1 p.windings }
  if start = 0 then create_left_top q
  else if start = 2 then create_left_bottom q
  else create_left_center q


/-- Modelled from the spec's sweep-angle clipping sentence (§4.3 step 3):
clip whenever `radius_now` exceeds the bound, independent of the turn
count. -/
noncomputable def specClipRule (p : WParams) : ℤ :=
  if radius_now0 p > hlimit p then clipAngle (hlimit p) (radius_now0 p) else 90

/-- Concrete parameter sets used by the witnesses and counterexamples
below (the reference scenario of the spec and small variations). -/
def c1params : WParams := ⟨⟨0, 0⟩, 0, 16000, 2000, 300, 250, 250, 1⟩

def c1wparams : WParams := ⟨⟨0, 0⟩, 0, 16000, 2000, 300, 250, 250, 2⟩

def c2params : WParams := ⟨⟨0, 0⟩, 20000, 16000, 2000, 300, 250, 250, 2⟩

def c3params : WParams := ⟨⟨0, 0⟩, 20000, 16000, 2000, 300, 250, 250, 1⟩

def c4params : WParams := ⟨⟨0, 0⟩, 20, 2, 2000, 0, 2, 4, 2⟩

def c5params : WParams := ⟨⟨0, 0⟩, 20000, 4000, 5000, 300, 250, 250, 2⟩

def c6params : WParams := ⟨⟨0, 0⟩, 1, 1, 0, 0, 1, 2, 1⟩

def c7params : WParams := ⟨⟨0, 0⟩, 20000, 4000, 5000, 300, 250, 250, 3⟩

def c9params : WParams := ⟨⟨0, 0⟩, 20000, 16000, 2000, 300, 250, 250, 0⟩

end WindingGen

namespace WindingGen

@[simp] lemma arcPt_zero (c : Pt) (r : ℤ) : arcPt c r 0 = some ⟨c.x + r, c.y⟩ := by
  simp [arcPt, cosQ, sinQ]

@[simp] lemma arcPt_ninety (c : Pt) (r : ℤ) : arcPt c r 90 = some ⟨c.x, c.y + r⟩ := by
  simp [arcPt, cosQ, sinQ]

@[simp] lemma arcPt_oneeighty (c : Pt) (r : ℤ) : arcPt c r 180 = some ⟨c.x - r, c.y⟩ := by
  simp [arcPt, cosQ, sinQ]
  ring

@[simp] lemma arcPt_twoseventy (c : Pt) (r : ℤ) : arcPt c r 270 = some ⟨c.x, c.y - r⟩ := by
  simp [arcPt, cosQ, sinQ]
  ring

@[simp] lemma arcPt_full (c : Pt) (r : ℤ) : arcPt c r 360 = some ⟨c.x + r, c.y⟩ := by
  simp [arcPt, cosQ, sinQ]

lemma turnLC_state (p : WParams) (a : ℤ) (st : LCState) :
    (turnLC p a st).1 =
      ⟨st.nx - rad_inc2 p - rad_inc1 p, p.center.y, st.rn + rad_inc1 p + rad_inc2 p⟩ := by
  simp only [turnLC, LCState.mk.injEq]
  norm_num
  omega

lemma turnLC_segs_ninety (p : WParams) (hw : p.windings ≠ 1) (st : LCState) :
    (turnLC p 90 st).2 =
      [Seg.line ⟨st.nx, st.ny⟩ ⟨st.nx, st.ny + (f_height p).fdiv 2⟩ (emitWidth p.track_width),
       Seg.arc ⟨st.nx + st.rn, st.ny + (f_height p).fdiv 2⟩ st.rn 90 180 (emitWidth p.track_width),
       Seg.line ⟨st.nx + st.rn, st.ny + (f_height p).fdiv 2 + st.rn⟩
                ⟨st.nx + st.rn + f_length p, st.ny + (f_height p).fdiv 2 + st.rn⟩
                (emitWidth p.track_width),
       Seg.arc ⟨st.nx + st.rn + f_length p, st.ny + (f_height p).fdiv 2⟩ st.rn 0 90
                (emitWidth p.track_width),
       Seg.line ⟨st.nx + st.rn + f_length p + st.rn, st.ny + (f_height p).fdiv 2⟩
                ⟨st.nx + st.rn + f_length p + st.rn, st.ny + (f_height p).fdiv 2 - f_height p⟩
                (emitWidth p.track_width),
       Seg.arc ⟨st.nx + st.rn + f_length p, st.ny + (f_height p).fdiv 2 - f_height p⟩ st.rn 270 360
                (emitWidth p.track_width),
       Seg.line ⟨st.nx + st.rn + f_length p, st.ny + (f_height p).fdiv 2 - f_height p - st.rn⟩
                ⟨st.nx + st.rn - rad_inc2 p, st.ny + (f_height p).fdiv 2 - f_height p - st.rn⟩
                (emitWidth p.track_width),
       Seg.arc ⟨st.nx + st.rn - rad_inc2 p, st.ny + (f_height p).fdiv 2 - f_height p + rad_inc1 p⟩
                (st.rn + rad_inc1 p) 180 270 (emitWidth p.track_width),
       Seg.line ⟨st.nx - rad_inc2 p - rad_inc1 p, st.ny + (f_height p).fdiv 2 - f_height p + rad_inc1 p⟩
                ⟨st.nx - rad_inc2 p - rad_inc1 p, p.center.y⟩ (emitWidth p.track_width)] := by
  simp only [turnLC, if_pos, if_neg hw]
  norm_num [Seg.line.injEq, Seg.arc.injEq, Pt.mk.injEq, List.cons.injEq]
  omega

end WindingGen

namespace WindingGen

lemma lcAngle_of_ne (p : WParams) (hw : p.windings ≠ 1) : lcAngle p = 90 := by
  simp [lcAngle, hw]

lemma rad_inc_sum (p : WParams) (hw : p.windings ≠ 1) :
    rad_inc1 p + rad_inc2 p = p.track_spacing + p.track_width := by
  simp [rad_inc1, rad_inc2, rad_inc2_pre, hw]

lemma radius_le_half_height (p : WParams) : radius p ≤ p.w_height.fdiv 2 :=
  le_trans (min_le_right _ _) (min_le_right _ _)

lemma radius_now0_le_vlimit (p : WParams) : radius_now0 p ≤ vlimit p := by
  have h := radius_le_half_height p
  unfold radius_now0 vlimit
  omega

lemma radius_now0_add_inc1_le (p : WParams) :
    radius_now0 p + rad_inc1 p ≤ vlimit p := by
  have h := radius_now0_le_vlimit p
  unfold rad_inc1 rad_inc1_pre
  split
  · omega
  · split <;> omega

lemma turnLC_len (p : WParams) (a : ℤ) (st : LCState) :
    ((turnLC p a st).2).length = if a = 90 then 9 else 7 := by
  by_cases h : a = 90 <;> simp [turnLC, h]

lemma loopLC_len (p : WParams) (a : ℤ) (k : ℕ) (st : LCState) :
    (loopLC p a k st).length = k * (if a = 90 then 9 else 7) := by
  induction k generalizing st with
  | zero => simp [loopLC]
  | succ k ih => simp [loopLC, ih, turnLC_len]; split <;> ring

lemma turnLB_len (p : WParams) (st : LCState) : ((turnLB p st).2).length = 8 := by
  simp [turnLB]

lemma loopLB_len (p : WParams) (k : ℕ) (st : LCState) :
    (loopLB p k st).length = k * 8 := by
  induction k generalizing st with
  | zero => simp [loopLB]
  | succ k ih => simp [loopLB, ih, turnLB_len]; ring

lemma turnLT_len (p : WParams) (st : LCState) : ((turnLT p st).2).length = 8 := by
  simp [turnLT]

lemma loopLT_len (p : WParams) (k : ℕ) (st : LCState) :
    (loopLT p k st).length = k * 8 := by
  induction k generalizing st with
  | zero => simp [loopLT]
  | succ k ih => simp [loopLT, ih, turnLT_len]; ring

lemma lcState_rn (p : WParams) (k : ℕ) :
    (lcState p k).rn = radius_now0 p + k * (rad_inc1 p + rad_inc2 p) := by
  induction k with
  | zero => simp [lcState, initLC]
  | succ k ih =>
      show ((turnLC p (lcAngle p) (lcState p k)).1).rn = _
      rw [turnLC_state]
      push_cast
      simp only [ih]
      ring

lemma lcState_ny (p : WParams) (k : ℕ) (hk : k ≠ 0) :
    (lcState p k).ny = p.center.y := by
  cases k with
  | zero => exact absurd rfl hk
  | succ k =>
      show ((turnLC p (lcAngle p) (lcState p k)).1).ny = _
      rw [turnLC_state]

lemma turnLB_state (p : WParams) (st : LCState) :
    (turnLB p st).1 =
      ⟨st.nx, st.ny + p.track_width + p.track_spacing,
       st.rn + p.track_spacing + p.track_width⟩ := by
  simp only [turnLB, LCState.mk.injEq]
  norm_num
  omega

lemma lbState_rn (p : WParams) (k : ℕ) :
    (lbState p k).rn = radius_now0 p + k * (p.track_spacing + p.track_width) := by
  induction k with
  | zero => simp [lbState, initLB]
  | succ k ih =>
      show ((turnLB p (lbState p k)).1).rn = _
      rw [turnLB_state]
      push_cast
      simp only [ih]
      ring

end WindingGen

namespace WindingGen

lemma contig_pt {s t : Seg} (q : Pt) (hs : some q ∈ segEnds s) (ht : some q ∈ segEnds t) :
    contiguous s t :=
  ⟨some q, hs, by simp, ht⟩

lemma chain_turnLC (p : WParams) (hw : p.windings ≠ 1) (st : LCState) :
    List.Chain' contiguous (turnLC p 90 st).2 := by
  rw [turnLC_segs_ninety p hw st]
  simp only [List.chain'_cons, List.chain'_singleton, and_true]
  refine ⟨?_, ?_, ?_, ?_, ?_, ?_, ?_, ?_⟩
  · exact contig_pt ⟨st.nx, st.ny + (f_height p).fdiv 2⟩
      (by simp [segEnds, Pt.mk.injEq]; try omega)
      (by simp [segEnds, Pt.mk.injEq]; try omega)
  · exact contig_pt ⟨st.nx + st.rn, st.ny + (f_height p).fdiv 2 + st.rn⟩
      (by simp [segEnds, Pt.mk.injEq]; try omega)
      (by simp [segEnds, Pt.mk.injEq]; try omega)
  · exact contig_pt ⟨st.nx + st.rn + f_length p, st.ny + (f_height p).fdiv 2 + st.rn⟩
      (by simp [segEnds, Pt.mk.injEq]; try omega)
      (by simp [segEnds, Pt.mk.injEq]; try omega)
  · exact contig_pt ⟨st.nx + st.rn + f_length p + st.rn, st.ny + (f_height p).fdiv 2⟩
      (by simp [segEnds, Pt.mk.injEq]; try omega)
      (by simp [segEnds, Pt.mk.injEq]; try omega)
  · exact contig_pt ⟨st.nx + st.rn + f_length p + st.rn, st.ny + (f_height p).fdiv 2 - f_height p⟩
      (by simp [segEnds, Pt.mk.injEq]; try omega)
      (by simp [segEnds, Pt.mk.injEq]; try omega)
  · exact contig_pt ⟨st.nx + st.rn + f_length p, st.ny + (f_height p).fdiv 2 - f_height p - st.rn⟩
      (by simp [segEnds, Pt.mk.injEq]; try omega)
      (by simp [segEnds, Pt.mk.injEq]; try omega)
  · exact contig_pt ⟨st.nx + st.rn - rad_inc2 p, st.ny + (f_height p).fdiv 2 - f_height p - st.rn⟩
      (by simp [segEnds, Pt.mk.injEq]; try omega)
      (by simp [segEnds, Pt.mk.injEq]; try omega)
  · exact contig_pt ⟨st.nx - rad_inc2 p - rad_inc1 p, st.ny + (f_height p).fdiv 2 - f_height p + rad_inc1 p⟩
      (by simp [segEnds, Pt.mk.injEq]; try omega)
      (by simp [segEnds, Pt.mk.injEq]; try omega)

end WindingGen

namespace WindingGen

lemma chain_loopLC (p : WParams) (hw : p.windings ≠ 1) (k : ℕ) (st : LCState) :
    List.Chain' contiguous (loopLC p 90 k st) := by
  induction k generalizing st with
  | zero => simp [loopLC]
  | succ k ih =>
      rw [loopLC]
      apply List.chain'_append.mpr
      refine ⟨chain_turnLC p hw st, ih _, ?_⟩
      intro x hx y hy
      rcases k with _ | k
      · simp [loopLC] at hy
      · rw [loopLC] at hy
        rw [turnLC_segs_ninety p hw ((turnLC p 90 st).1)] at hy
        rw [turnLC_segs_ninety p hw st] at hx
        simp at hx hy
        subst hx
        subst hy
        exact contig_pt ⟨st.nx - rad_inc2 p - rad_inc1 p, p.center.y⟩
          (by simp [segEnds, Pt.mk.injEq])
          (by simp [segEnds, turnLC_state, Pt.mk.injEq])

lemma turnLT_state (p : WParams) (st : LCState) :
    (turnLT p st).1 =
      ⟨st.nx - p.track_width - p.track_spacing, st.ny,
       st.rn + p.track_spacing + p.track_width⟩ := by
  simp only [turnLT, LCState.mk.injEq]
  norm_num
  omega

lemma turnLT_segs (p : WParams) (st : LCState) :
    (turnLT p st).2 =
      [Seg.line ⟨st.nx, st.ny⟩ ⟨st.nx, st.ny + f_height p⟩ (emitWidth p.track_width),
       Seg.arc ⟨st.nx + st.rn, st.ny + f_height p⟩ st.rn 90 180 (emitWidth p.track_width),
       Seg.line ⟨st.nx + st.rn, st.ny + f_height p + st.rn⟩
                ⟨st.nx + st.rn + f_length p, st.ny + f_height p + st.rn⟩
                (emitWidth p.track_width),
       Seg.arc ⟨st.nx + st.rn + f_length p, st.ny + f_height p⟩ st.rn 0 90
                (emitWidth p.track_width),
       Seg.line ⟨st.nx + st.rn + f_length p + st.rn, st.ny + f_height p⟩
                ⟨st.nx + st.rn + f_length p + st.rn, st.ny⟩ (emitWidth p.track_width),
       Seg.arc ⟨st.nx + st.rn + f_length p, st.ny⟩ st.rn 270 360 (emitWidth p.track_width),
       Seg.line ⟨st.nx + st.rn + f_length p, st.ny - st.rn⟩
                ⟨st.nx + st.rn - p.track_width - p.track_spacing, st.ny - st.rn⟩
                (emitWidth p.track_width),
       Seg.arc ⟨st.nx + st.rn - p.track_width - p.track_spacing, st.ny⟩ st.rn 180 270
                (emitWidth p.track_width)] := by
  simp only [turnLT]
  norm_num [Seg.line.injEq, Seg.arc.injEq, Pt.mk.injEq, List.cons.injEq]
  try omega

lemma chain_turnLT (p : WParams) (st : LCState) :
    List.Chain' contiguous (turnLT p st).2 := by
  rw [turnLT_segs p st]
  simp only [List.chain'_cons, List.chain'_singleton, and_true]
  refine ⟨?_, ?_, ?_, ?_, ?_, ?_, ?_⟩
  · exact contig_pt ⟨st.nx, st.ny + f_height p⟩
      (by simp [segEnds, Pt.mk.injEq]; try omega)
      (by simp [segEnds, Pt.mk.injEq]; try omega)
  · exact contig_pt ⟨st.nx + st.rn, st.ny + f_height p + st.rn⟩
      (by simp [segEnds, Pt.mk.injEq]; try omega)
      (by simp [segEnds, Pt.mk.injEq]; try omega)
  · exact contig_pt ⟨st.nx + st.rn + f_length p, st.ny + f_height p + st.rn⟩
      (by simp [segEnds, Pt.mk.injEq]; try omega)
      (by simp [segEnds, Pt.mk.injEq]; try omega)
  · exact contig_pt ⟨st.nx + st.rn + f_length p + st.rn, st.ny + f_height p⟩
      (by simp [segEnds, Pt.mk.injEq]; try omega)
      (by simp [segEnds, Pt.mk.injEq]; try omega)
  · exact contig_pt ⟨st.nx + st.rn + f_length p + st.rn, st.ny⟩
      (by simp [segEnds, Pt.mk.injEq]; try omega)
      (by simp [segEnds, Pt.mk.injEq]; try omega)
  · exact contig_pt ⟨st.nx + st.rn + f_length p, st.ny - st.rn⟩
      (by simp [segEnds, Pt.mk.injEq]; try omega)
      (by simp [segEnds, Pt.mk.injEq]; try omega)
  · exact contig_pt ⟨st.nx + st.rn - p.track_width - p.track_spacing, st.ny - st.rn⟩
      (by simp [segEnds, Pt.mk.injEq]; try omega)
      (by simp [segEnds, Pt.mk.injEq]; try omega)

lemma chain_loopLT (p : WParams) (k : ℕ) (st : LCState) :
    List.Chain' contiguous (loopLT p k st) := by
  induction k generalizing st with
  | zero => simp [loopLT]
  | succ k ih =>
      rw [loopLT]
      apply List.chain'_append.mpr
      refine ⟨chain_turnLT p st, ih _, ?_⟩
      intro x hx y hy
      rcases k with _ | k
      · simp [loopLT] at hy
      · rw [loopLT] at hy
        rw [turnLT_segs p ((turnLT p st).1)] at hy
        rw [turnLT_segs p st] at hx
        simp at hx hy
        subst hx
        subst hy
        exact contig_pt ⟨st.nx - p.track_width - p.track_spacing, st.ny⟩
          (by simp [segEnds, Pt.mk.injEq]; try omega)
          (by simp [segEnds, turnLT_state, Pt.mk.injEq]; try omega)

end WindingGen

namespace WindingGen

/-- Claim C1 (amended): the generation entry point performs no parameter
validation at all: a call with `outer_width ≤ 0`, `outer_height ≤ 0` or
`track_width ≤ 0` raises no `InvalidParameter` (no such failure exists in
the code) and a multi-turn run still calls the sink, emitting a nonempty
primitive sequence. -/
theorem claim_C1 (start : ℤ) (p : WParams)
    (_hbad : p.w_length ≤ 0 ∨ p.w_height ≤ 0 ∨ p.track_width ≤ 0)
    (ht : 2 ≤ p.windings) :
    ∃ tr, Run start p = some tr ∧ tr ≠ [] := by
  have hmax : max 1 p.windings = p.windings := max_eq_right (by omega)
  have hw : p.windings ≠ 1 := by omega
  have hpos : 0 < p.windings.toNat := by omega
  unfold Run
  simp only [hmax]
  by_cases h0 : start = 0
  · refine ⟨ltTrace p, ?_, ?_⟩
    · simp [h0, create_left_top, hw]
    · apply List.ne_nil_of_length_pos
      rw [ltTrace, loopLT_len]
      omega
  · by_cases h2 : start = 2
    · refine ⟨lbTrace p, ?_, ?_⟩
      · simp [h0, h2, create_left_bottom, hw]
      · apply List.ne_nil_of_length_pos
        rw [lbTrace, loopLB_len]
        omega
    · refine ⟨lcTrace p, ?_, ?_⟩
      · have hnd : ¬ lcZeroDiv p := fun h => hw h.1
        simp [h0, h2, create_left_center, hnd]
      · apply List.ne_nil_of_length_pos
        rw [lcTrace, loopLC_len]
        split <;> omega

end WindingGen

namespace WindingGen

/-- Claim C1 witness: at `outer_width = 0`, two turns, the run emits. -/
theorem claim_C1_witness : (Run 1 c1wparams).isSome = true := by
  obtain ⟨tr, htr, -⟩ := claim_C1 1 c1wparams (Or.inl (by decide)) (by decide)
  simp [htr]

/-- Claim C1 counterexample: the claim says a run with `outer_width = 0`
fails before any emission and calls no sink method; in fact the run with
`outer_width = 0` (one turn, other parameters the reference ones)
succeeds and emits 9 primitives. -/
theorem claim_C1_counterexample :
    (Run 1 c1params).isSome = true ∧ ((Run 1 c1params).getD []).length = 9 := by
  decide

/-- Claim C2 counterexample: in the valid single-turn reference scenario
the first emitted primitive (the opening stub, which overshoots by
`track_spacing`) shares no endpoint with the second (the first end-cap
arc): every endpoint of one is at squared distance ≥ 1 from every
endpoint of the other, so they do not meet within half a unit. -/
theorem claim_C2_counterexample :
    create_left_center c3params = some (lcTrace c3params) ∧
    (lcTrace c3params).take 2 =
      [Seg.line ⟨-10425, 250⟩ ⟨-10425, 6250⟩ 250,
       Seg.arc ⟨-8000, 6000⟩ 2425 90 180 250] ∧
    segEnds (Seg.line ⟨-10425, 250⟩ ⟨-10425, 6250⟩ 250) =
      [some ⟨-10425, 250⟩, some ⟨-10425, 6250⟩] ∧
    segEnds (Seg.arc ⟨-8000, 6000⟩ 2425 90 180 250) =
      [some ⟨-8000, 8425⟩, some ⟨-10425, 6000⟩] ∧
    (∀ a ∈ [(⟨-10425, 250⟩ : Pt), ⟨-10425, 6250⟩],
      ∀ b ∈ [(⟨-8000, 8425⟩ : Pt), ⟨-10425, 6000⟩],
        1 ≤ (a.x - b.x) ^ 2 + (a.y - b.y) ^ 2) := by
  decide

/-- Claim C2 (amended): for every parameter set with `turns ≥ 2` the
left-center and left-top runs complete, iterating the per-turn emission
structure exactly `turns` times (9 resp. 8 primitives per turn), with no
gaps: every pair of consecutive primitives shares its junction endpoint
exactly.  (For `turns = 1` the stub lines deliberately overshoot the
junction; see the counterexample.) -/
theorem claim_C2 (p : WParams) (ht : 2 ≤ p.windings) :
    create_left_center p = some (lcTrace p) ∧
    List.Chain' contiguous (lcTrace p) ∧
    (lcTrace p).length = 9 * p.windings.toNat ∧
    create_left_top p = some (ltTrace p) ∧
    List.Chain' contiguous (ltTrace p) ∧
    (ltTrace p).length = 8 * p.windings.toNat := by
  have hw : p.windings ≠ 1 := by omega
  have ha : lcAngle p = 90 := lcAngle_of_ne p hw
  have hnd : ¬ lcZeroDiv p := fun h => hw h.1
  refine ⟨by simp [create_left_center, hnd], ?_, ?_, by simp [create_left_top, hw], ?_, ?_⟩
  · unfold lcTrace
    rw [ha]
    exact chain_loopLC p hw _ _
  · unfold lcTrace
    rw [ha, loopLC_len]
    simp [Nat.mul_comm]
  · exact chain_loopLT p _ _
  · unfold ltTrace
    rw [loopLT_len]
    simp [Nat.mul_comm]

/-- Claim C2 witness: the two-turn reference run is gap-free. -/
theorem claim_C2_witness :
    2 ≤ c2params.windings ∧ List.Chain' contiguous (lcTrace c2params) :=
  ⟨by decide, (claim_C2 c2params (by decide)).2.1⟩

/-- Claim C3 counterexample: the reference single-turn scenario
(`20000 × 16000`, corner 2000, clearance 300, width/spacing 250, one
turn, centred) does not emit exactly 2 lines and 2 arcs. -/
theorem claim_C3_counterexample :
    create_left_center c3params = some (lcTrace c3params) ∧
    ¬ ((lcTrace c3params).countP Seg.isLine = 2 ∧
       (lcTrace c3params).countP Seg.isArc = 2) := by
  decide

/-- Claim C3 (amended): the reference single-turn scenario emits exactly
5 lines and 4 arcs (three span lines plus two stubs around four quarter
arcs), every arc radius is `2000 + 300 + 125 = 2425` and every arc sweep
is 90° (no clipping, since 2425 ≤ 8175). -/
theorem claim_C3 :
    create_left_center c3params = some (lcTrace c3params) ∧
    (lcTrace c3params).countP Seg.isLine = 5 ∧
    (lcTrace c3params).countP Seg.isArc = 4 ∧
    ∀ s ∈ lcTrace c3params, s.isArc → s.arcRadius = 2425 ∧ s.sweepDeg = 90 := by
  decide

/-- Claim C4 (amended): the end-cap sweep angle is fixed before the turn
loop, but the spec's clipping rule is applied only when `turns == 1`; for
every other turn count the angle is unconditionally 90°, even when
`radius_now` exceeds the clip bound. -/
theorem claim_C4 (p : WParams) :
    lcAngle p = if p.windings = 1 then specClipRule p else 90 := by
  unfold lcAngle specClipRule
  by_cases hw : p.windings = 1 <;> simp [hw]

/-- Claim C4 counterexample: a two-turn run whose initial `radius_now`
exceeds the clip bound (bound −1 < radius 2, clip ratio clamps to 1,
`acos 1 = 0`) would get angle 0 under the claimed rule, yet the code
keeps `angle = 90`. -/
theorem claim_C4_counterexample :
    lcAngle c4params = 90 ∧ specClipRule c4params = 0 ∧
    lcAngle c4params ≠ specClipRule c4params := by
  have h1 : lcAngle c4params = 90 := by decide
  have h2 : specClipRule c4params = 0 := by
    unfold specClipRule
    rw [if_pos (by decide)]
    have e1 : hlimit c4params = -1 := by decide
    have e2 : radius_now0 c4params = 2 := by decide
    rw [e1, e2]
    unfold clipAngle
    have e3 : (max (-1 : ℝ) (min 1 (1 - ((-1 : ℤ) : ℝ) / ((2 : ℤ) : ℝ)))) = 1 := by
      norm_num
    rw [e3, Real.arccos_one]
    norm_num
  refine ⟨h1, h2, ?_⟩
  rw [h1, h2]
  decide

end WindingGen

namespace WindingGen

/-- Claim C5 counterexample: in a two-turn run on a short rectangle the
second turn's `radius_now` is 2925, exceeding the vertical limit 2425 —
the 11th emitted primitive is an arc of radius 2925 — so `radius_now`
does not stay within the available space in every turn. -/
theorem claim_C5_counterexample :
    1 < c5params.windings ∧
    vlimit c5params = 2425 ∧
    (lcState c5params 1).rn = 2925 ∧
    ¬ (lcState c5params 1).rn ≤ vlimit c5params ∧
    ((lcTrace c5params).getD 10 (Seg.line ⟨0, 0⟩ ⟨0, 0⟩ 0)).arcRadius = 2925 := by
  decide

/-- Claim C5 (amended): for `turns > 1` the per-turn radial step
`track_spacing + track_width` is split as `rad_inc1 + rad_inc2`, with
`rad_inc1` equal to exactly the remaining headroom whenever the full step
would push past the vertical limit; `radius_now` stays within the limit
throughout the first turn (initially and after `rad_inc1`), but it grows
by the full step every turn, so later turns may exceed the limit. -/
theorem claim_C5 (p : WParams) (ht : 1 < p.windings) :
    rad_inc1 p + rad_inc2 p = p.track_spacing + p.track_width ∧
    (radius_now0 p + (p.track_spacing + p.track_width) > vlimit p →
      rad_inc1 p = vlimit p - radius_now0 p) ∧
    radius_now0 p ≤ vlimit p ∧
    radius_now0 p + rad_inc1 p ≤ vlimit p := by
  have hw : p.windings ≠ 1 := by omega
  refine ⟨rad_inc_sum p hw, ?_, radius_now0_le_vlimit p, radius_now0_add_inc1_le p⟩
  intro hclip
  simp [rad_inc1, hw, rad_inc1_pre, hclip]

/-- Claim C5 witness: the split sums to the full step on the two-turn
clipped run. -/
theorem claim_C5_witness :
    rad_inc1 c5params + rad_inc2 c5params = c5params.track_spacing + c5params.track_width :=
  (claim_C5 c5params (by decide)).1

/-- Claim C6 counterexample: the validation-passing parameter set
`w = h = track_width = 1`, `corner = clearance = 0`, `spacing = 2`, one
turn has initial radius 0 and triggers the clip branch, so the source
divides by zero (line 306) and the run fails before emitting anything
instead of completing. -/
theorem claim_C6_counterexample :
    lcZeroDiv c6params ∧ create_left_center c6params = none := by
  decide

/-- Claim C6 (amended): apart from the single-turn zero-radius
division-by-zero case, a left-center run always completes after exactly
`turns` loop iterations emitting a fixed 9 primitives per iteration
(5 lines + 4 arcs) when the end-cap angle is 90°, and 7 (3 lines +
4 arcs) otherwise; a multi-turn left-bottom run always completes with
exactly 8 primitives (4 lines + 4 arcs) per iteration. -/
theorem claim_C6 :
    (∀ p : WParams, ¬ lcZeroDiv p →
      create_left_center p = some (lcTrace p) ∧
      (lcTrace p).length = p.windings.toNat * (if lcAngle p = 90 then 9 else 7)) ∧
    (∀ p : WParams, p.windings ≠ 1 →
      create_left_bottom p = some (lbTrace p) ∧
      (lbTrace p).length = p.windings.toNat * 8) := by
  constructor
  · intro p hp
    refine ⟨by simp [create_left_center, hp], ?_⟩
    unfold lcTrace
    rw [loopLC_len]
  · intro p hw
    refine ⟨by simp [create_left_bottom, hw], ?_⟩
    unfold lbTrace
    rw [loopLB_len]

/-- Claim C6 witness: the two-turn reference run does not fail. -/
theorem claim_C6_witness :
    ¬ lcZeroDiv c2params ∧ create_left_center c2params = some (lcTrace c2params) :=
  ⟨by decide, (claim_C6.1 c2params (by decide)).1⟩

/-- Claim C7 counterexample: in an unclipped three-turn run (angle is
90°, so there is no angle-clip correction) `radius_now` reaches 3425
after two turns, exceeding `outer_height/2 + clearance + track_width/2
= 2425` by 1000. -/
theorem claim_C7_counterexample :
    lcAngle c7params = 90 ∧
    vlimit c7params = 2425 ∧
    (lcState c7params 2).rn = 3425 ∧
    ¬ ∀ k : ℕ, k ≤ 2 → (lcState c7params k).rn ≤ vlimit c7params := by
  refine ⟨by decide, by decide, by decide, ?_⟩
  intro h
  have := h 2 (by omega)
  have h2 : (lcState c7params 2).rn = 3425 := by decide
  have h3 : vlimit c7params = 2425 := by decide
  omega

/-- Claim C7 (amended): within a multi-turn run `radius_now` after `k`
turns is exactly `radius_now0 + k * (track_spacing + track_width)` for
the left-center and left-bottom generators alike, hence strictly
increasing from turn to turn whenever the step is positive; the vertical
limit bounds it during the first turn only. -/
theorem claim_C7 (p : WParams) (hw : p.windings ≠ 1)
    (hstep : 0 < p.track_spacing + p.track_width) :
    (∀ k : ℕ, (lcState p k).rn =
      radius_now0 p + k * (p.track_spacing + p.track_width)) ∧
    (∀ k : ℕ, (lcState p k).rn < (lcState p (k + 1)).rn) ∧
    (∀ k : ℕ, (lbState p k).rn =
      radius_now0 p + k * (p.track_spacing + p.track_width)) ∧
    (∀ k : ℕ, (lbState p k).rn < (lbState p (k + 1)).rn) := by
  have hsum := rad_inc_sum p hw
  have h1 : ∀ k : ℕ, (lcState p k).rn =
      radius_now0 p + k * (p.track_spacing + p.track_width) := by
    intro k
    rw [lcState_rn, hsum]
  refine ⟨h1, ?_, lbState_rn p, ?_⟩
  · intro k
    rw [h1 k, h1 (k + 1)]
    push_cast
    nlinarith
  · intro k
    rw [lbState_rn, lbState_rn]
    push_cast
    nlinarith

/-- Claim C7 witness: the closed form after one turn of the three-turn
run. -/
theorem claim_C7_witness :
    (lcState c7params 1).rn =
      radius_now0 c7params + 1 * (c7params.track_spacing + c7params.track_width) :=
  (claim_C7 c7params (by decide) (by decide)).1 1

/-- Claim C8 (confirmed): with `turns = 1` the left-top and left-bottom
generators delegate to the left-center generator with identical
arguments, so the three single-turn primitive sequences are identical. -/
theorem claim_C8 (p : WParams) (h1 : p.windings = 1) :
    create_left_top p = create_left_center p ∧
    create_left_bottom p = create_left_center p := by
  constructor <;> simp [create_left_top, create_left_bottom, h1]

/-- Claim C8 witness: delegation at the reference single-turn scenario. -/
theorem claim_C8_witness :
    create_left_top c3params = create_left_center c3params ∧
    create_left_bottom c3params = create_left_center c3params :=
  claim_C8 c3params (by decide)

/-- Claim C9 (confirmed): the entry point clamps the turn count with
`max(1, n)`, so invoking generation with `turns = 0` or negative produces
exactly the same emitted primitive sequence as `turns = 1`. -/
theorem claim_C9 (start : ℤ) (p : WParams) (h : p.windings ≤ 0) :
    Run start p = Run start { p with windings := 1 } := by
  unfold Run
  have hm : max 1 p.windings = 1 := by omega
  simp [hm]

/-- Claim C9 witness: `turns = 0` equals `turns = 1` at the reference
parameters. -/
theorem claim_C9_witness :
    Run 1 c9params = Run 1 { c9params with windings := 1 } :=
  claim_C9 1 c9params (by decide)

/-- Claim C10 counterexample: in the single-turn reference run the
(only) loop iteration starts with the pen at `center.y + 250`, not at
the vertical center. -/
theorem claim_C10_counterexample :
    c3params.windings = 1 ∧ c3params.center.y = 0 ∧
    (lcState c3params 0).ny = 250 ∧
    (lcState c3params 0).ny ≠ c3params.center.y := by
  decide

/-- Claim C10 (amended): the end of every turn unconditionally resets
the pen's y to `center.y`, so every loop iteration after the first — and
the first one too whenever `turns ≠ 1` — starts exactly at the vertical
center; in a single-turn run the first iteration instead starts at
`center.y + track_width/2 + track_spacing/2`. -/
theorem claim_C10 :
    (∀ (p : WParams) (k : ℕ), k ≠ 0 → (lcState p k).ny = p.center.y) ∧
    (∀ p : WParams, p.windings ≠ 1 → (lcState p 0).ny = p.center.y) ∧
    (∀ p : WParams, p.windings = 1 →
      (lcState p 0).ny =
        p.center.y + p.track_width.fdiv 2 + p.track_spacing.fdiv 2) := by
  refine ⟨fun p k hk => lcState_ny p k hk, ?_, ?_⟩
  · intro p hw
    simp [lcState, initLC, now_y0, hw]
  · intro p hw
    simp [lcState, initLC, now_y0, hw]

/-- Claim C10 witness: after one turn the pen is back at the center
height. -/
theorem claim_C10_witness : (lcState c7params 1).ny = c7params.center.y :=
  claim_C10.1 c7params 1 (by decide)

end WindingGen
